import Mathlib

/-!
Shallow embedding of the recipe-management backend.

The embedded code is `app/recipe/views.py` together with the generic
viewset behaviour it inherits (object lookup inside `get_queryset`,
delete/retrieve dispatch), and — where the repository file is not part of
the source tree (`app/core/models.py`, `app/recipe/serializers.py`) —
definitions modelled from the specification, each marked as such in its
doc comment.

Machine integers of the program are modelled as `Nat`/`Int` (no overflow
is relevant: ids are database primary keys), strings as `String`, and the
database as explicit lists of rows threaded through each operation.
-/

/-- HTTP status codes named by the spec (§6); the embedding returns these. -/
inductive HStatus
  | ok200
  | created201
  | noContent204
  | badRequest400
  | unauthorized401
  | forbidden403
  | notFound404
  deriving DecidableEq, Repr

/-- A row of `core.models.Recipe`: owned by exactly one user, with
many-to-many tag and ingredient links stored as id lists. -/
structure Recipe where
  id : Nat
  user : Nat
  title : String
  description : String
  time_minutes : Nat
  price : Int
  link : String
  tags : List Nat
  ingredients : List Nat
  deriving DecidableEq, Repr

/-- A row of `core.models.Tag` or `core.models.Ingredient`: both are a
user-owned name, so they share one row shape. -/
structure AttrRow where
  id : Nat
  user : Nat
  name : String
  deriving DecidableEq, Repr

/-- The relational store behind the API: one table per entity plus the
auto-increment counters of the primary keys. -/
structure Store where
  recipes : List Recipe
  tags : List AttrRow
  ingredients : List AttrRow
  nextRecipeId : Nat
  nextTagId : Nat
  nextIngredientId : Nat
  deriving DecidableEq, Repr

/-- The row order produced by `order_by('-id')` in
`RecipeViewSet.get_queryset` (views.py:23): descending identifiers. -/
def recipeDescId (a b : Recipe) : Prop := b.id ≤ a.id

instance : DecidableRel recipeDescId := fun a b => Nat.decLe b.id a.id

instance : IsTotal Recipe recipeDescId := ⟨fun a b => Nat.le_total b.id a.id⟩

instance : IsTrans Recipe recipeDescId := ⟨fun _ _ _ h1 h2 => Nat.le_trans h2 h1⟩

/-- The row order produced by `order_by('-name')` in
`RecipeAttrBaseViewSet.get_queryset` (views.py:46): descending names. -/
def attrDescName (a b : AttrRow) : Prop := b.name ≤ a.name

instance : DecidableRel attrDescName :=
  fun a b => inferInstanceAs (Decidable (b.name ≤ a.name))

instance : IsTotal AttrRow attrDescName := ⟨fun a b => le_total b.name a.name⟩

instance : IsTrans AttrRow attrDescName := ⟨fun _ _ _ h1 h2 => le_trans h2 h1⟩

/-- `RecipeViewSet.get_queryset` (views.py:21-23):
`self.queryset.filter(user=self.request.user).order_by('-id')`. -/
def RecipeViewSet.get_queryset (u : Nat) (s : Store) : List Recipe :=
  List.insertionSort recipeDescId (s.recipes.filter (fun r => r.user == u))

/-- `RecipeAttrBaseViewSet.get_queryset` (views.py:44-46) instantiated at
`TagViewSet` (views.py:49-53):
`self.queryset.filter(user=self.request.user).order_by('-name')`. -/
def TagViewSet.get_queryset (u : Nat) (s : Store) : List AttrRow :=
  List.insertionSort attrDescName (s.tags.filter (fun t => t.user == u))

/-- `RecipeAttrBaseViewSet.get_queryset` (views.py:44-46) instantiated at
`IngredientViewSet` (views.py:56-60). -/
def IngredientViewSet.get_queryset (u : Nat) (s : Store) : List AttrRow :=
  List.insertionSort attrDescName (s.ingredients.filter (fun t => t.user == u))

/-- Generic `get_object` of the framework specialised to `RecipeViewSet`:
the pk is looked up inside `get_queryset`, so a recipe of another user is
indistinguishable from an absent one. -/
def RecipeViewSet.get_object (u : Nat) (s : Store) (pk : Nat) : Option Recipe :=
  (RecipeViewSet.get_queryset u s).find? (fun r => r.id == pk)

/-- GET /recipes/{id}: 200 with the row, or 404 when `get_object` fails. -/
def RecipeViewSet.retrieve (u : Nat) (s : Store) (pk : Nat) :
    HStatus × Option Recipe :=
  match RecipeViewSet.get_object u s pk with
  | none => (.notFound404, none)
  | some r => (.ok200, some r)

/-- DELETE /recipes/{id}: 204 after removing the row, or 404 when
`get_object` fails (in which case the store is returned untouched). -/
def RecipeViewSet.destroy (u : Nat) (s : Store) (pk : Nat) : HStatus × Store :=
  match RecipeViewSet.get_object u s pk with
  | none => (.notFound404, s)
  | some _ => (.noContent204, { s with recipes := s.recipes.filter (fun x => x.id != pk) })

/-- The viewset actions of the framework. `patch` is the PATCH variant of
`update` provided by the same mixin. -/
inductive ViewAction
  | list
  | retrieve
  | create
  | update
  | patch
  | destroy
  deriving DecidableEq, Repr

def CreateModelMixin.actions : List ViewAction := [.create]

/-- `UpdateModelMixin` handles both PUT (full) and PATCH update. -/
def UpdateModelMixin.actions : List ViewAction := [.update, .patch]

def DestroyModelMixin.actions : List ViewAction := [.destroy]

def ListModelMixin.actions : List ViewAction := [.list]

def RetrieveModelMixin.actions : List ViewAction := [.retrieve]

/-- `RecipeAttrBaseViewSet` (views.py:36-40) composes exactly
`CreateModelMixin`, `UpdateModelMixin`, `DestroyModelMixin` and
`ListModelMixin` over `GenericViewSet` — no `RetrieveModelMixin`. -/
def RecipeAttrBaseViewSet.actions : List ViewAction :=
  CreateModelMixin.actions ++ UpdateModelMixin.actions ++
    DestroyModelMixin.actions ++ ListModelMixin.actions

/-- `RecipeViewSet` (views.py:14) extends `viewsets.ModelViewSet`, which
composes all five mixins. -/
def RecipeViewSet.actions : List ViewAction :=
  CreateModelMixin.actions ++ RetrieveModelMixin.actions ++
    UpdateModelMixin.actions ++ DestroyModelMixin.actions ++
      ListModelMixin.actions

inductive Method
  | get
  | post
  | put
  | patch
  | delete
  deriving DecidableEq, Repr

/-- The framework router: which action a method on a detail URL
(/tags/{id}, /ingredients/{id}, /recipes/{id}) is dispatched to. -/
def detailRoute : Method → Option ViewAction
  | .get => some .retrieve
  | .put => some .update
  | .patch => some .patch
  | .delete => some .destroy
  | .post => none

/-- A detail-URL request is handled iff the routed action belongs to the
viewset's action set. -/
def handlesDetail (acts : List ViewAction) (m : Method) : Bool :=
  match detailRoute m with
  | some a => acts.contains a
  | none => false

/-- The two wire representations of a recipe (serializers.py, spec §4.2). -/
inductive SerializerClass
  | recipeSerializer
  | recipeDetailSerializer
  deriving DecidableEq, Repr

/-- `RecipeViewSet.get_serializer_class` (views.py:25-29): the summary
`RecipeSerializer` for the `list` action, the default
`RecipeDetailSerializer` (views.py:16) for every other action. -/
def RecipeViewSet.get_serializer_class (a : ViewAction) : SerializerClass :=
  if a = .list then .recipeSerializer else .recipeDetailSerializer

/-- Modelled from the spec: `app/recipe/serializers.py` is not under src/.
§4.2: the summary RecipeSerializer exposes id, title, time_minutes, price,
link; RecipeDetailSerializer adds description, tags, ingredients. -/
def serializerFields : SerializerClass → List String
  | .recipeSerializer => ["id", "title", "time_minutes", "price", "link"]
  | .recipeDetailSerializer =>
      ["id", "title", "time_minutes", "price", "link",
        "description", "tags", "ingredients"]

/-- Error taxonomy of the spec (§7): an empty or invalid field is a
ValidationError (the repository's own model test observes it as the
Python ValueError create_user raises). -/
inductive UserError
  | validationError
  deriving DecidableEq, Repr

/-- A row of the user directory (core.models.User). -/
structure UserAccount where
  id : Nat
  email : String
  passwordHash : String
  is_staff : Bool
  is_superuser : Bool
  deriving DecidableEq, Repr

/-- The user table with its primary-key counter. -/
structure UserStore where
  users : List UserAccount
  nextUserId : Nat
  deriving DecidableEq, Repr

/-- Modelled from the spec: password hashing is an external collaborator
(§4.1 "hashes password before storage"); represented as a tagging
function so the stored value is never the plaintext itself. -/
def hash_password (p : String) : String := "hashed:" ++ p

/-- Lower-case every character strictly after the first '@'; the
characters before it (and a string with no '@') are untouched. -/
def lowerAfterAt : List Char → List Char
  | [] => []
  | c :: cs => if c = '@' then c :: cs.map Char.toLower else c :: lowerAfterAt cs

/-- Modelled from the spec: `app/core/models.py` (the user manager's email
normalization) is not under src/. §4.1: "normalizes email by lower-casing
only the domain portion", §3: the domain is the part after the '@', the
local part's case is preserved. -/
def normalize_email (e : String) : String := ⟨lowerAfterAt e.data⟩

/-- Modelled from the spec: `create_user` of `app/core/models.py` is not
under src/. §4.1: fails with ValidationError when email is empty (leaving
the directory unchanged), otherwise stores the normalized email and the
hashed password and returns the new user. -/
def create_user (st : UserStore) (email password : String) :
    Except UserError UserAccount × UserStore :=
  if email = "" then (.error .validationError, st)
  else
    let u : UserAccount :=
      ⟨st.nextUserId, normalize_email email, hash_password password, false, false⟩
    (.ok u, ⟨st.users ++ [u], st.nextUserId + 1⟩)

/-- Modelled from the spec: the nested-name resolution of
`app/recipe/serializers.py` (not under src/). §4.2: a tag/ingredient
submitted by name is resolved scoped to the current user — a same-named
row of this user is reused, otherwise one is created. -/
def gocRow (u nid : Nat) (rows : List AttrRow) (n : String) :
    AttrRow × List AttrRow × Nat :=
  match rows.find? (fun t => t.user == u && t.name == n) with
  | some t => (t, rows, nid)
  | none => (⟨nid, u, n⟩, rows ++ [⟨nid, u, n⟩], nid + 1)

/-- Modelled from the spec (§4.2): resolve a payload's name list left to
right through `gocRow`, returning the resolved row ids, the updated table
and the updated pk counter. -/
def resolveRows (u : Nat) : List String → List AttrRow → Nat →
    List Nat × List AttrRow × Nat
  | [], rows, nid => ([], rows, nid)
  | n :: ns, rows, nid =>
    let g := gocRow u nid rows n
    let rest := resolveRows u ns g.2.1 g.2.2
    (g.1.id :: rest.1, rest.2.1, rest.2.2)

/-- Nested tag resolution lifted to the store. -/
def resolve_tags (u : Nat) (s : Store) (names : List String) :
    List Nat × Store :=
  let g := resolveRows u names s.tags s.nextTagId
  (g.1, { s with tags := g.2.1, nextTagId := g.2.2 })

/-- Nested ingredient resolution lifted to the store. -/
def resolve_ingredients (u : Nat) (s : Store) (names : List String) :
    List Nat × Store :=
  let g := resolveRows u names s.ingredients s.nextIngredientId
  (g.1, { s with ingredients := g.2.1, nextIngredientId := g.2.2 })

/-- A recipe write payload; `none` is an omitted field. Nested tags and
ingredients are carried as name lists (§4.2). The `user` field models a
client trying to set the owner; the serializer's user field is read-only
(spec §3, §4.3), so no operation below reads it. -/
structure RecipePayload where
  title : Option String := none
  description : Option String := none
  time_minutes : Option Nat := none
  price : Option Int := none
  link : Option String := none
  tags : Option (List String) := none
  ingredients : Option (List String) := none
  user : Option Nat := none
  deriving Repr

/-- Modelled from the spec: the serializer update of
`app/recipe/serializers.py` (not under src/). Each provided scalar field
replaces the stored one; a provided tag/ingredient list fully replaces
the associated set (§4.2); id, owner and omitted fields are untouched. -/
def apply_payload (r : Recipe) (p : RecipePayload)
    (tagIds ingIds : Option (List Nat)) : Recipe :=
  { r with
    title := p.title.getD r.title
    description := p.description.getD r.description
    time_minutes := p.time_minutes.getD r.time_minutes
    price := p.price.getD r.price
    link := p.link.getD r.link
    tags := tagIds.getD r.tags
    ingredients := ingIds.getD r.ingredients }

/-- Resolve the payload's tag list when it is present: `none` leaves the
store as is, `some names` runs the §4.2 get-or-create resolution. -/
def tagsStep (u : Nat) (s : Store) (o : Option (List String)) :
    Option (List Nat) × Store :=
  match o with
  | none => (none, s)
  | some names =>
    let g := resolve_tags u s names
    (some g.1, g.2)

/-- Resolve the payload's ingredient list when it is present. -/
def ingredientsStep (u : Nat) (s : Store) (o : Option (List String)) :
    Option (List Nat) × Store :=
  match o with
  | none => (none, s)
  | some names =>
    let g := resolve_ingredients u s names
    (some g.1, g.2)

/-- PUT/PATCH /recipes/{id}: object lookup through the user-scoped
queryset (views.py:21-23), then the serializer update — nested names
resolved per §4.2 when their list is present, the payload's user field
never read. Modelled from the spec for the serializer part. -/
def RecipeViewSet.update (u : Nat) (s : Store) (pk : Nat)
    (p : RecipePayload) : HStatus × Store :=
  match RecipeViewSet.get_object u s pk with
  | none => (.notFound404, s)
  | some r =>
    let tRes := tagsStep u s p.tags
    let iRes := ingredientsStep u tRes.2 p.ingredients
    let r' := apply_payload r p tRes.1 iRes.1
    (.ok200,
      { iRes.2 with
          recipes := iRes.2.recipes.map (fun x => if x.id == pk then r' else x) })

/-- POST /recipes: `perform_create` (views.py:31-33) assigns the owner
from the authenticated caller; nested names (empty when omitted) are
resolved per §4.2. Modelled from the spec for the serializer part. -/
def RecipeViewSet.create (u : Nat) (s : Store) (p : RecipePayload) :
    HStatus × Store :=
  let t := resolve_tags u s (p.tags.getD [])
  let i := resolve_ingredients u t.2 (p.ingredients.getD [])
  let r : Recipe :=
    ⟨i.2.nextRecipeId, u, p.title.getD "", p.description.getD "",
      p.time_minutes.getD 0, p.price.getD 0, p.link.getD "", t.1, i.1⟩
  (.created201,
    { i.2 with
        recipes := i.2.recipes ++ [r],
        nextRecipeId := i.2.nextRecipeId + 1 })

/-- Number of tag/ingredient rows owned by `u` carrying name `n`. -/
def countRows (u : Nat) (n : String) (rows : List AttrRow) : Nat :=
  (rows.filter (fun t => t.user == u && t.name == n)).length

/-- The recipe stored under primary key `pk`. -/
def recipeById (s : Store) (pk : Nat) : Option Recipe :=
  s.recipes.find? (fun x => x.id == pk)

theorem get_object_mem {u : Nat} {s : Store} {pk : Nat} {r : Recipe}
    (h : RecipeViewSet.get_object u s pk = some r) :
    r ∈ s.recipes ∧ r.user = u ∧ r.id = pk := by
  unfold RecipeViewSet.get_object at h
  have hp := List.find?_some h
  have hmem := List.mem_of_find?_eq_some h
  rw [RecipeViewSet.get_queryset, List.mem_insertionSort, List.mem_filter] at hmem
  refine ⟨hmem.1, ?_, ?_⟩
  · simpa using hmem.2
  · simpa using hp

theorem get_object_none {s : Store} {B : Nat} {r : Recipe}
    (hr : r ∈ s.recipes) (hB : B ≠ r.user)
    (hnd : (s.recipes.map Recipe.id).Nodup) :
    RecipeViewSet.get_object B s r.id = none := by
  cases h : RecipeViewSet.get_object B s r.id with
  | none => rfl
  | some x =>
    exfalso
    obtain ⟨hxmem, hxu, hxid⟩ := get_object_mem h
    have hxr : x = r := List.inj_on_of_nodup_map hnd hxmem hr hxid
    exact hB (by rw [← hxr]; exact hxu.symm)

/-- C1: for every authenticated user and every store, the list operation
of each of the three handlers returns only rows owned by that user,
whatever the other rows are. -/
theorem list_scoped_to_owner (u : Nat) (s : Store) :
    (∀ r ∈ RecipeViewSet.get_queryset u s, r.user = u) ∧
    (∀ t ∈ TagViewSet.get_queryset u s, t.user = u) ∧
    (∀ t ∈ IngredientViewSet.get_queryset u s, t.user = u) := by
  refine ⟨fun r hr => ?_, fun t ht => ?_, fun t ht => ?_⟩
  · rw [RecipeViewSet.get_queryset, List.mem_insertionSort, List.mem_filter] at hr
    simpa using hr.2
  · rw [TagViewSet.get_queryset, List.mem_insertionSort, List.mem_filter] at ht
    simpa using ht.2
  · rw [IngredientViewSet.get_queryset, List.mem_insertionSort, List.mem_filter] at ht
    simpa using ht.2

theorem list_scoped_to_owner_witness :
    (⟨10, 7, "Curry", "", 5, 525, "", [], []⟩ : Recipe) ∈
        RecipeViewSet.get_queryset 7
          ⟨[⟨10, 7, "Curry", "", 5, 525, "", [], []⟩,
            ⟨11, 8, "Soup", "", 5, 525, "", [], []⟩], [], [], 12, 0, 0⟩ ∧
    (⟨10, 7, "Curry", "", 5, 525, "", [], []⟩ : Recipe).user = 7 :=
  ⟨by decide,
    (list_scoped_to_owner 7
        ⟨[⟨10, 7, "Curry", "", 5, 525, "", [], []⟩,
          ⟨11, 8, "Soup", "", 5, 525, "", [], []⟩], [], [], 12, 0, 0⟩).1
      ⟨10, 7, "Curry", "", 5, 525, "", [], []⟩ (by decide)⟩

/-- C2: a delete or retrieve by a distinct authenticated user B against a
recipe owned by A answers 404 (never 403) and leaves the store — in
particular the recipe row — untouched. -/
theorem other_user_delete_retrieve_404 (s : Store) (A B : Nat) (r : Recipe)
    (hr : r ∈ s.recipes) (hA : r.user = A) (hAB : B ≠ A)
    (hnd : (s.recipes.map Recipe.id).Nodup) :
    RecipeViewSet.destroy B s r.id = (HStatus.notFound404, s) ∧
    r ∈ (RecipeViewSet.destroy B s r.id).2.recipes ∧
    RecipeViewSet.retrieve B s r.id = (HStatus.notFound404, none) := by
  have h0 : RecipeViewSet.get_object B s r.id = none :=
    get_object_none hr (by rw [hA]; exact hAB) hnd
  refine ⟨?_, ?_, ?_⟩ <;>
    simp [RecipeViewSet.destroy, RecipeViewSet.retrieve, h0, hr]

theorem other_user_delete_retrieve_404_witness :
    RecipeViewSet.destroy 2
        ⟨[⟨1, 1, "Curry", "", 5, 525, "", [], []⟩], [], [], 2, 0, 0⟩ 1 =
      (HStatus.notFound404,
        ⟨[⟨1, 1, "Curry", "", 5, 525, "", [], []⟩], [], [], 2, 0, 0⟩) :=
  (other_user_delete_retrieve_404
      ⟨[⟨1, 1, "Curry", "", 5, 525, "", [], []⟩], [], [], 2, 0, 0⟩ 1 2
      ⟨1, 1, "Curry", "", 5, 525, "", [], []⟩
      (by decide) rfl (by decide) (by decide)).1

/-- C4: create_user on an empty email always fails with the spec's
ValidationError and leaves the user directory unchanged. -/
theorem create_user_empty_email_fails (st : UserStore) (pw : String) :
    create_user st "" pw = (Except.error UserError.validationError, st) := rfl

/-- C8: the recipe list is descending in identifier, the tag and
ingredient lists are descending in name. -/
theorem list_ordering_descending (u : Nat) (s : Store) :
    List.Pairwise (fun a b : Recipe => b.id ≤ a.id)
        (RecipeViewSet.get_queryset u s) ∧
    List.Pairwise (fun a b : AttrRow => b.name ≤ a.name)
        (TagViewSet.get_queryset u s) ∧
    List.Pairwise (fun a b : AttrRow => b.name ≤ a.name)
        (IngredientViewSet.get_queryset u s) :=
  ⟨List.sorted_insertionSort recipeDescId _,
    List.sorted_insertionSort attrDescName _,
    List.sorted_insertionSort attrDescName _⟩

/-- C9: the tag/ingredient base viewset's action set is exactly create,
update (PUT and PATCH), delete and list; GET on a detail URL is not
handled as a retrieve even though PUT/PATCH/DELETE there are handled. -/
theorem attr_viewset_no_retrieve :
    RecipeAttrBaseViewSet.actions =
      [ViewAction.create, ViewAction.update, ViewAction.patch,
        ViewAction.destroy, ViewAction.list] ∧
    ViewAction.retrieve ∉ RecipeAttrBaseViewSet.actions ∧
    handlesDetail RecipeAttrBaseViewSet.actions Method.get = false ∧
    handlesDetail RecipeAttrBaseViewSet.actions Method.put = true ∧
    handlesDetail RecipeAttrBaseViewSet.actions Method.patch = true ∧
    handlesDetail RecipeAttrBaseViewSet.actions Method.delete = true :=
  ⟨rfl, by decide, rfl, rfl, rfl, rfl⟩

/-- C10: the summary serializer is used exactly for the list action;
every other action uses the detail serializer, whose fields include
description, tags and ingredients. -/
theorem serializer_class_dispatch :
    RecipeViewSet.get_serializer_class ViewAction.list =
      SerializerClass.recipeSerializer ∧
    (∀ a, a ≠ ViewAction.list →
        RecipeViewSet.get_serializer_class a =
          SerializerClass.recipeDetailSerializer) ∧
    "description" ∈ serializerFields SerializerClass.recipeDetailSerializer ∧
    "tags" ∈ serializerFields SerializerClass.recipeDetailSerializer ∧
    "ingredients" ∈ serializerFields SerializerClass.recipeDetailSerializer := by
  refine ⟨rfl, ?_, by decide, by decide, by decide⟩
  intro a ha
  simp [RecipeViewSet.get_serializer_class, ha]

theorem serializer_class_dispatch_witness :
    ViewAction.create ≠ ViewAction.list ∧
    RecipeViewSet.get_serializer_class ViewAction.create =
      SerializerClass.recipeDetailSerializer :=
  ⟨by decide, serializer_class_dispatch.2.1 ViewAction.create (by decide)⟩

theorem lowerAfterAt_of_no_at {l : List Char} (h : '@' ∉ l) :
    lowerAfterAt l = l := by
  induction l with
  | nil => rfl
  | cons c cs ih =>
    have hc : c ≠ '@' := fun hc => h (hc ▸ List.mem_cons_self c cs)
    have hcs : '@' ∉ cs := fun hm => h (List.mem_cons_of_mem c hm)
    simp [lowerAfterAt, hc, ih hcs]

theorem lowerAfterAt_split {l : List Char} (d : List Char) (h : '@' ∉ l) :
    lowerAfterAt (l ++ '@' :: d) = l ++ '@' :: d.map Char.toLower := by
  induction l with
  | nil => simp [lowerAfterAt]
  | cons c cs ih =>
    have hc : c ≠ '@' := fun hc => h (hc ▸ List.mem_cons_self c cs)
    have hcs : '@' ∉ cs := fun hm => h (List.mem_cons_of_mem c hm)
    simp [lowerAfterAt, hc, ih hcs]

/-- C3: for every non-empty email, create_user stores the email with
exactly the part after the '@' lower-cased and the local part preserved;
an email without an '@' is stored as given. -/
theorem create_user_normalizes_domain (st : UserStore) (pw lp dp : String)
    (hlp : '@' ∉ lp.data) :
    (∃ u st',
        create_user st (lp ++ "@" ++ dp) pw = (Except.ok u, st') ∧
        u.email = lp ++ "@" ++ (⟨dp.data.map Char.toLower⟩ : String) ∧
        u ∈ st'.users) ∧
    (∀ e : String, e ≠ "" → '@' ∉ e.data →
        ∃ u st', create_user st e pw = (Except.ok u, st') ∧
          u.email = e ∧ u ∈ st'.users) := by
  constructor
  · have hd : (lp ++ "@" ++ dp).data = lp.data ++ '@' :: dp.data := by
      simp [String.data_append]
    have hne : lp ++ "@" ++ dp ≠ "" := by
      intro h
      have hcontra := congrArg String.data h
      rw [hd] at hcontra
      simp at hcontra
    refine ⟨_, _, by rw [create_user, if_neg hne], ?_, by simp [create_user, if_neg hne]⟩
    apply String.ext
    show (normalize_email (lp ++ "@" ++ dp)).data = _
    rw [normalize_email]
    show lowerAfterAt (lp ++ "@" ++ dp).data = _
    rw [hd, lowerAfterAt_split _ hlp]
    simp [String.data_append]
  · intro e he hat
    refine ⟨_, _, by rw [create_user, if_neg he], ?_, by simp [create_user, if_neg he]⟩
    apply String.ext
    show (normalize_email e).data = e.data
    rw [normalize_email]
    show lowerAfterAt e.data = e.data
    exact lowerAfterAt_of_no_at hat

theorem create_user_normalizes_domain_witness :
    ('@' ∉ "Test2".data) ∧
    (∃ u st',
        create_user ⟨[], 0⟩ ("Test2" ++ "@" ++ "EXAMPLE.com") "pw" =
          (Except.ok u, st') ∧
        u.email = "Test2" ++ "@" ++
          (⟨"EXAMPLE.com".data.map Char.toLower⟩ : String) ∧
        u ∈ st'.users) :=
  ⟨by decide,
    (create_user_normalizes_domain ⟨[], 0⟩ "pw" "Test2" "EXAMPLE.com"
      (by decide)).1⟩

theorem gocRow_found {u nid : Nat} {rows : List AttrRow} {n : String}
    {t : AttrRow}
    (h : rows.find? (fun t => t.user == u && t.name == n) = some t) :
    gocRow u nid rows n = (t, rows, nid) := by
  unfold gocRow
  rw [h]

theorem gocRow_not_found {u nid : Nat} {rows : List AttrRow} {n : String}
    (h : rows.find? (fun t => t.user == u && t.name == n) = none) :
    gocRow u nid rows n = (⟨nid, u, n⟩, rows ++ [⟨nid, u, n⟩], nid + 1) := by
  unfold gocRow
  rw [h]

theorem gocRow_count (u nid : Nat) (rows : List AttrRow) (n : String)
    (v : Nat) (m : String) :
    countRows v m (gocRow u nid rows n).2.1 =
      if v = u ∧ m = n ∧ countRows v m rows = 0 then 1
      else countRows v m rows := by
  cases hfind : rows.find? (fun t => t.user == u && t.name == n) with
  | some t =>
    rw [gocRow_found hfind, if_neg]
    rintro ⟨hv, hm, hc⟩
    subst hv
    subst hm
    rw [countRows, List.length_eq_zero] at hc
    have hp := List.find?_some hfind
    have hmem := List.mem_of_find?_eq_some hfind
    have ht : t ∈ rows.filter (fun t => t.user == v && t.name == m) :=
      List.mem_filter.2 ⟨hmem, hp⟩
    rw [hc] at ht
    exact absurd ht (List.not_mem_nil t)
  | none =>
    rw [gocRow_not_found hfind]
    have h0 : ∀ x ∈ rows, ¬((x.user == u && x.name == n) = true) :=
      List.find?_eq_none.mp hfind
    show countRows v m (rows ++ [⟨nid, u, n⟩]) = _
    simp only [countRows, List.filter_append, List.length_append]
    by_cases hv : v = u
    · subst hv
      by_cases hm : m = n
      · subst hm
        have hc : (rows.filter (fun t => t.user == v && t.name == m)).length = 0 := by
          rw [List.length_eq_zero, List.filter_eq_nil_iff]
          exact h0
        rw [if_pos ⟨rfl, rfl, hc⟩, hc]
        simp
      · rw [if_neg (by rintro ⟨_, hmn, _⟩; exact hm hmn)]
        simp [Ne.symm hm]
    · rw [if_neg (by rintro ⟨hvu, _, _⟩; exact hv hvu)]
      simp [Ne.symm hv]

theorem resolveRows_count (u : Nat) (names : List String)
    (rows : List AttrRow) (nid : Nat) (v : Nat) (m : String) :
    countRows v m (resolveRows u names rows nid).2.1 =
      if v = u ∧ m ∈ names ∧ countRows v m rows = 0 then 1
      else countRows v m rows := by
  induction names generalizing rows nid with
  | nil => simp [resolveRows]
  | cons n ns ih =>
    have hstep : (resolveRows u (n :: ns) rows nid).2.1 =
        (resolveRows u ns (gocRow u nid rows n).2.1 (gocRow u nid rows n).2.2).2.1 :=
      rfl
    rw [hstep, ih, gocRow_count]
    by_cases hv : v = u
    · subst hv
      by_cases hm : m = n
      · subst hm
        by_cases hc : countRows v m rows = 0
        · simp [hc]
        · simp [hc]
      · by_cases hc : countRows v m rows = 0
        · simp [hm, hc, List.mem_cons]
        · simp [hm, hc, List.mem_cons]
    · simp [hv]

theorem gocRow_sublist (u nid : Nat) (rows : List AttrRow) (n : String) :
    List.Sublist rows (gocRow u nid rows n).2.1 := by
  cases hfind : rows.find? (fun t => t.user == u && t.name == n) with
  | some t =>
    rw [gocRow_found hfind]
  | none =>
    rw [gocRow_not_found hfind]
    exact List.sublist_append_left rows _

theorem resolveRows_sublist (u : Nat) (names : List String)
    (rows : List AttrRow) (nid : Nat) :
    List.Sublist rows (resolveRows u names rows nid).2.1 := by
  induction names generalizing rows nid with
  | nil => exact List.Sublist.refl rows
  | cons n ns ih =>
    exact (gocRow_sublist u nid rows n).trans
      (ih (gocRow u nid rows n).2.1 (gocRow u nid rows n).2.2)

theorem gocRow_fst (u nid : Nat) (rows : List AttrRow) (n : String) :
    (gocRow u nid rows n).1 ∈ (gocRow u nid rows n).2.1 ∧
    (gocRow u nid rows n).1.user = u ∧ (gocRow u nid rows n).1.name = n := by
  cases hfind : rows.find? (fun t => t.user == u && t.name == n) with
  | some t =>
    rw [gocRow_found hfind]
    have hp := List.find?_some hfind
    have hmem := List.mem_of_find?_eq_some hfind
    simp only [Bool.and_eq_true, beq_iff_eq] at hp
    exact ⟨hmem, hp.1, hp.2⟩
  | none =>
    rw [gocRow_not_found hfind]
    refine ⟨?_, rfl, rfl⟩
    simp

theorem resolveRows_ids (u : Nat) (names : List String)
    (rows : List AttrRow) (nid : Nat) :
    (∀ i ∈ (resolveRows u names rows nid).1,
        ∃ t ∈ (resolveRows u names rows nid).2.1,
          t.id = i ∧ t.user = u ∧ t.name ∈ names) ∧
    (∀ n ∈ names,
        ∃ t ∈ (resolveRows u names rows nid).2.1,
          t.user = u ∧ t.name = n ∧ t.id ∈ (resolveRows u names rows nid).1) := by
  induction names generalizing rows nid with
  | nil => simp [resolveRows]
  | cons n ns ih =>
    obtain ⟨ht0mem, ht0u, ht0n⟩ := gocRow_fst u nid rows n
    have hsub : List.Sublist (gocRow u nid rows n).2.1
        (resolveRows u ns (gocRow u nid rows n).2.1 (gocRow u nid rows n).2.2).2.1 :=
      resolveRows_sublist u ns _ _
    have hids : (resolveRows u (n :: ns) rows nid).1 =
        (gocRow u nid rows n).1.id ::
          (resolveRows u ns (gocRow u nid rows n).2.1 (gocRow u nid rows n).2.2).1 :=
      rfl
    have hrows : (resolveRows u (n :: ns) rows nid).2.1 =
        (resolveRows u ns (gocRow u nid rows n).2.1 (gocRow u nid rows n).2.2).2.1 :=
      rfl
    constructor
    · intro i hi
      rw [hids] at hi
      rw [hrows]
      rcases List.mem_cons.mp hi with h | h
      · exact ⟨(gocRow u nid rows n).1, hsub.subset ht0mem, h.symm, ht0u,
          by rw [ht0n]; exact List.mem_cons_self n ns⟩
      · obtain ⟨t, htmem, hti, htu, htn⟩ := (ih _ _).1 i h
        exact ⟨t, htmem, hti, htu, List.mem_cons_of_mem n htn⟩
    · intro m hm
      rw [hrows, hids]
      rcases List.mem_cons.mp hm with h | h
      · exact ⟨(gocRow u nid rows n).1, hsub.subset ht0mem, ht0u,
          ht0n.trans h.symm, List.mem_cons_self _ _⟩
      · obtain ⟨t, htmem, htu, htn, hti⟩ := (ih _ _).2 m h
        exact ⟨t, htmem, htu, htn, List.mem_cons_of_mem _ hti⟩

theorem update_of_found {u : Nat} {s : Store} {pk : Nat} {p : RecipePayload}
    {r : Recipe} (hobj : RecipeViewSet.get_object u s pk = some r) :
    RecipeViewSet.update u s pk p =
      (HStatus.ok200,
        { (ingredientsStep u (tagsStep u s p.tags).2 p.ingredients).2 with
            recipes :=
              (ingredientsStep u (tagsStep u s p.tags).2 p.ingredients).2.recipes.map
                (fun x => if x.id == pk then
                    apply_payload r p (tagsStep u s p.tags).1
                      (ingredientsStep u (tagsStep u s p.tags).2 p.ingredients).1
                  else x) }) := by
  unfold RecipeViewSet.update
  rw [hobj]

theorem tagsStep_recipes (u : Nat) (s : Store) (o : Option (List String)) :
    (tagsStep u s o).2.recipes = s.recipes := by
  cases o <;> rfl

theorem tagsStep_ingredients (u : Nat) (s : Store) (o : Option (List String)) :
    (tagsStep u s o).2.ingredients = s.ingredients := by
  cases o <;> rfl

theorem tagsStep_nextIngredientId (u : Nat) (s : Store) (o : Option (List String)) :
    (tagsStep u s o).2.nextIngredientId = s.nextIngredientId := by
  cases o <;> rfl

theorem ingredientsStep_recipes (u : Nat) (s : Store) (o : Option (List String)) :
    (ingredientsStep u s o).2.recipes = s.recipes := by
  cases o <;> rfl

theorem ingredientsStep_tags (u : Nat) (s : Store) (o : Option (List String)) :
    (ingredientsStep u s o).2.tags = s.tags := by
  cases o <;> rfl

/-- C5: on a recipe write (create or update, here with both nested lists
present) the name resolution is get-or-create scoped to the caller u: a
name not yet owned by u ends with exactly one row — also when it occurs
several times in one payload — a name already owned by u keeps its single
row (and every pre-existing row survives, so the row is reused), and the
row counts of every other user are untouched. -/
theorem nested_names_get_or_create (u : Nat) (s : Store) (pk : Nat)
    (p : RecipePayload) (names inames : List String) (r : Recipe)
    (hp : p.tags = some names) (hpi : p.ingredients = some inames)
    (hobj : RecipeViewSet.get_object u s pk = some r) :
    (∀ v m, countRows v m (RecipeViewSet.create u s p).2.tags =
        if v = u ∧ m ∈ names ∧ countRows v m s.tags = 0 then 1
        else countRows v m s.tags) ∧
    (∀ v m, countRows v m (RecipeViewSet.create u s p).2.ingredients =
        if v = u ∧ m ∈ inames ∧ countRows v m s.ingredients = 0 then 1
        else countRows v m s.ingredients) ∧
    List.Sublist s.tags (RecipeViewSet.create u s p).2.tags ∧
    (∀ v m, countRows v m (RecipeViewSet.update u s pk p).2.tags =
        if v = u ∧ m ∈ names ∧ countRows v m s.tags = 0 then 1
        else countRows v m s.tags) ∧
    (∀ v m, countRows v m (RecipeViewSet.update u s pk p).2.ingredients =
        if v = u ∧ m ∈ inames ∧ countRows v m s.ingredients = 0 then 1
        else countRows v m s.ingredients) ∧
    List.Sublist s.tags (RecipeViewSet.update u s pk p).2.tags := by
  have e1 : (RecipeViewSet.create u s p).2.tags =
      (resolveRows u names s.tags s.nextTagId).2.1 := by
    have h : (RecipeViewSet.create u s p).2.tags =
        (resolveRows u (p.tags.getD []) s.tags s.nextTagId).2.1 := rfl
    rw [h, hp]
    rfl
  have e2 : (RecipeViewSet.create u s p).2.ingredients =
      (resolveRows u inames s.ingredients s.nextIngredientId).2.1 := by
    have h : (RecipeViewSet.create u s p).2.ingredients =
        (resolveRows u (p.ingredients.getD [])
          (resolve_tags u s (p.tags.getD [])).2.ingredients
          (resolve_tags u s (p.tags.getD [])).2.nextIngredientId).2.1 := rfl
    rw [h, hpi]
    rfl
  have e3 : (RecipeViewSet.update u s pk p).2.tags =
      (resolveRows u names s.tags s.nextTagId).2.1 := by
    have h : (RecipeViewSet.update u s pk p).2.tags =
        (ingredientsStep u (tagsStep u s p.tags).2 p.ingredients).2.tags := by
      rw [update_of_found hobj]
    rw [h, ingredientsStep_tags, hp]
    rfl
  have e4 : (RecipeViewSet.update u s pk p).2.ingredients =
      (resolveRows u inames s.ingredients s.nextIngredientId).2.1 := by
    have h : (RecipeViewSet.update u s pk p).2.ingredients =
        (ingredientsStep u (tagsStep u s p.tags).2 p.ingredients).2.ingredients := by
      rw [update_of_found hobj]
    rw [h, hpi]
    show (resolveRows u inames (tagsStep u s p.tags).2.ingredients
        (tagsStep u s p.tags).2.nextIngredientId).2.1 = _
    rw [tagsStep_ingredients, tagsStep_nextIngredientId]
  refine ⟨?_, ?_, ?_, ?_, ?_, ?_⟩
  · intro v m
    rw [e1, resolveRows_count]
  · intro v m
    rw [e2, resolveRows_count]
  · rw [e1]
    exact resolveRows_sublist u names s.tags s.nextTagId
  · intro v m
    rw [e3, resolveRows_count]
  · intro v m
    rw [e4, resolveRows_count]
  · rw [e3]
    exact resolveRows_sublist u names s.tags s.nextTagId

theorem nested_names_get_or_create_witness :
    ((({ tags := some ["SampleTag", "Tag2", "Tag2"],
         ingredients := some [] } : RecipePayload)).tags =
      some ["SampleTag", "Tag2", "Tag2"]) ∧
    countRows 1 "Tag2"
        (RecipeViewSet.create 1
          ⟨[⟨1, 1, "T", "", 5, 525, "", [], []⟩], [⟨5, 1, "SampleTag"⟩], [],
            2, 6, 0⟩
          { tags := some ["SampleTag", "Tag2", "Tag2"],
            ingredients := some [] }).2.tags =
      if 1 = 1 ∧ "Tag2" ∈ ["SampleTag", "Tag2", "Tag2"] ∧
          countRows 1 "Tag2" [⟨5, 1, "SampleTag"⟩] = 0 then 1
      else countRows 1 "Tag2" [⟨5, 1, "SampleTag"⟩] :=
  ⟨rfl,
    (nested_names_get_or_create 1
        ⟨[⟨1, 1, "T", "", 5, 525, "", [], []⟩], [⟨5, 1, "SampleTag"⟩], [],
          2, 6, 0⟩ 1
        { tags := some ["SampleTag", "Tag2", "Tag2"], ingredients := some [] }
        ["SampleTag", "Tag2", "Tag2"] [] ⟨1, 1, "T", "", 5, 525, "", [], []⟩
        rfl rfl (by decide)).1 1 "Tag2"⟩

theorem update_tags_eq {u : Nat} {s : Store} {pk : Nat} {p : RecipePayload}
    {r : Recipe} {names : List String}
    (hobj : RecipeViewSet.get_object u s pk = some r)
    (hp : p.tags = some names) :
    (RecipeViewSet.update u s pk p).2.tags =
      (resolveRows u names s.tags s.nextTagId).2.1 := by
  have h : (RecipeViewSet.update u s pk p).2.tags =
      (ingredientsStep u (tagsStep u s p.tags).2 p.ingredients).2.tags := by
    rw [update_of_found hobj]
  rw [h, ingredientsStep_tags, hp]
  rfl

theorem update_ingredients_eq {u : Nat} {s : Store} {pk : Nat}
    {p : RecipePayload} {r : Recipe} {inames : List String}
    (hobj : RecipeViewSet.get_object u s pk = some r)
    (hpi : p.ingredients = some inames) :
    (RecipeViewSet.update u s pk p).2.ingredients =
      (resolveRows u inames s.ingredients s.nextIngredientId).2.1 := by
  have h : (RecipeViewSet.update u s pk p).2.ingredients =
      (ingredientsStep u (tagsStep u s p.tags).2 p.ingredients).2.ingredients := by
    rw [update_of_found hobj]
  rw [h, hpi]
  show (resolveRows u inames (tagsStep u s p.tags).2.ingredients
      (tagsStep u s p.tags).2.nextIngredientId).2.1 = _
  rw [tagsStep_ingredients, tagsStep_nextIngredientId]

theorem update_recipes_of_found {u : Nat} {s : Store} {pk : Nat}
    {p : RecipePayload} {r : Recipe}
    (hobj : RecipeViewSet.get_object u s pk = some r) :
    (RecipeViewSet.update u s pk p).2.recipes =
      s.recipes.map (fun x => if x.id == pk then
          apply_payload r p (tagsStep u s p.tags).1
            (ingredientsStep u (tagsStep u s p.tags).2 p.ingredients).1
        else x) := by
  have h : (RecipeViewSet.update u s pk p).2.recipes =
      (ingredientsStep u (tagsStep u s p.tags).2 p.ingredients).2.recipes.map
        (fun x => if x.id == pk then
            apply_payload r p (tagsStep u s p.tags).1
              (ingredientsStep u (tagsStep u s p.tags).2 p.ingredients).1
          else x) := by
    rw [update_of_found hobj]
  rw [h, ingredientsStep_recipes, tagsStep_recipes]

theorem update_recipeById {u : Nat} {s : Store} {pk : Nat}
    {p : RecipePayload} {r : Recipe}
    (hobj : RecipeViewSet.get_object u s pk = some r)
    (hnd : (s.recipes.map Recipe.id).Nodup) :
    recipeById (RecipeViewSet.update u s pk p).2 pk =
      some (apply_payload r p (tagsStep u s p.tags).1
        (ingredientsStep u (tagsStep u s p.tags).2 p.ingredients).1) := by
  obtain ⟨hrmem, hru, hrid⟩ := get_object_mem hobj
  show ((RecipeViewSet.update u s pk p).2.recipes.find?
      (fun x => x.id == pk)) = _
  rw [update_recipes_of_found hobj, List.find?_map]
  have hpred : ((fun x : Recipe => x.id == pk) ∘
      (fun x => if x.id == pk then
          apply_payload r p (tagsStep u s p.tags).1
            (ingredientsStep u (tagsStep u s p.tags).2 p.ingredients).1
        else x)) = (fun x : Recipe => x.id == pk) := by
    funext x
    by_cases hx : x.id = pk
    · simp [Function.comp, hx, apply_payload, hrid]
    · simp [Function.comp, hx]
  rw [hpred]
  have hfind : s.recipes.find? (fun x => x.id == pk) = some r := by
    cases hf : s.recipes.find? (fun x => x.id == pk) with
    | none =>
      exact absurd (List.find?_eq_none.mp hf r hrmem) (by simp [hrid])
    | some x =>
      have hx := List.find?_some hf
      have hxm := List.mem_of_find?_eq_some hf
      simp only [beq_iff_eq] at hx
      have hxr : x = r :=
        List.inj_on_of_nodup_map hnd hxm hrmem (by rw [hx, hrid])
      rw [hxr]
  rw [hfind]
  simp [hrid]

theorem gocRow_fresh_nodup (u nid : Nat) (rows : List AttrRow) (n : String)
    (hnd : (rows.map AttrRow.id).Nodup) (hfresh : ∀ t ∈ rows, t.id < nid) :
    ((gocRow u nid rows n).2.1.map AttrRow.id).Nodup ∧
    (∀ t ∈ (gocRow u nid rows n).2.1, t.id < (gocRow u nid rows n).2.2) := by
  cases hfind : rows.find? (fun t => t.user == u && t.name == n) with
  | some t =>
    rw [gocRow_found hfind]
    exact ⟨hnd, hfresh⟩
  | none =>
    rw [gocRow_not_found hfind]
    constructor
    · rw [List.map_append, List.nodup_append]
      refine ⟨hnd, List.nodup_singleton _, ?_⟩
      intro a ha hb
      obtain ⟨t, htm, rfl⟩ := List.mem_map.mp ha
      have hlt := hfresh t htm
      simp only [List.map_cons, List.map_nil, List.mem_singleton] at hb
      rw [hb] at hlt
      exact absurd hlt (lt_irrefl nid)
    · intro t htm
      rcases List.mem_append.mp htm with h | h
      · exact Nat.lt_succ_of_lt (hfresh t h)
      · rw [List.mem_singleton] at h
        rw [h]
        exact Nat.lt_succ_self nid

theorem resolveRows_fresh_nodup (u : Nat) (names : List String)
    (rows : List AttrRow) (nid : Nat)
    (hnd : (rows.map AttrRow.id).Nodup) (hfresh : ∀ t ∈ rows, t.id < nid) :
    ((resolveRows u names rows nid).2.1.map AttrRow.id).Nodup ∧
    (∀ t ∈ (resolveRows u names rows nid).2.1,
        t.id < (resolveRows u names rows nid).2.2) := by
  induction names generalizing rows nid with
  | nil => exact ⟨hnd, hfresh⟩
  | cons n ns ih =>
    obtain ⟨h1, h2⟩ := gocRow_fresh_nodup u nid rows n hnd hfresh
    exact ih _ _ h1 h2

/-- C6: when an update payload carries a `tags` (resp. `ingredients`)
list, the recipe's association set afterwards is exactly the rows named
in the payload — every associated id is a row of the caller named in the
payload, every payload name is one of the associated rows, a previously
attached row of the caller whose name is not in the payload is detached —
an empty list empties the set, and omitting the field leaves it as it
was. -/
theorem update_list_replaces_assoc (u : Nat) (s : Store) (pk : Nat)
    (p : RecipePayload) (r : Recipe)
    (hobj : RecipeViewSet.get_object u s pk = some r)
    (hnd : (s.recipes.map Recipe.id).Nodup)
    (hndt : (s.tags.map AttrRow.id).Nodup)
    (hft : ∀ t ∈ s.tags, t.id < s.nextTagId)
    (hndi : (s.ingredients.map AttrRow.id).Nodup)
    (hfi : ∀ t ∈ s.ingredients, t.id < s.nextIngredientId) :
    (∀ names, p.tags = some names →
        ∃ r', recipeById (RecipeViewSet.update u s pk p).2 pk = some r' ∧
          (names = [] → r'.tags = []) ∧
          (∀ i ∈ r'.tags, ∃ t ∈ (RecipeViewSet.update u s pk p).2.tags,
              t.id = i ∧ t.user = u ∧ t.name ∈ names) ∧
          (∀ n ∈ names, ∃ t ∈ (RecipeViewSet.update u s pk p).2.tags,
              t.user = u ∧ t.name = n ∧ t.id ∈ r'.tags) ∧
          (∀ t ∈ s.tags, t.user = u → t.name ∉ names → t.id ∉ r'.tags)) ∧
    (p.tags = none →
        ∃ r', recipeById (RecipeViewSet.update u s pk p).2 pk = some r' ∧
          r'.tags = r.tags) ∧
    (∀ names, p.ingredients = some names →
        ∃ r', recipeById (RecipeViewSet.update u s pk p).2 pk = some r' ∧
          (names = [] → r'.ingredients = []) ∧
          (∀ i ∈ r'.ingredients,
              ∃ t ∈ (RecipeViewSet.update u s pk p).2.ingredients,
                t.id = i ∧ t.user = u ∧ t.name ∈ names) ∧
          (∀ n ∈ names,
              ∃ t ∈ (RecipeViewSet.update u s pk p).2.ingredients,
                t.user = u ∧ t.name = n ∧ t.id ∈ r'.ingredients) ∧
          (∀ t ∈ s.ingredients, t.user = u → t.name ∉ names →
              t.id ∉ r'.ingredients)) ∧
    (p.ingredients = none →
        ∃ r', recipeById (RecipeViewSet.update u s pk p).2 pk = some r' ∧
          r'.ingredients = r.ingredients) := by
  refine ⟨?_, ?_, ?_, ?_⟩
  · intro names hptags
    refine ⟨_, update_recipeById hobj hnd, ?_, ?_, ?_, ?_⟩
    case refine_1 =>
      intro hnil
      show (tagsStep u s p.tags).1.getD r.tags = []
      rw [hptags, hnil]
      rfl
    case refine_2 =>
      intro i hi
      replace hi : i ∈ (resolveRows u names s.tags s.nextTagId).1 := by
        have e : (apply_payload r p (tagsStep u s p.tags).1
            (ingredientsStep u (tagsStep u s p.tags).2 p.ingredients).1).tags =
              (resolveRows u names s.tags s.nextTagId).1 := by
          show (tagsStep u s p.tags).1.getD r.tags = _
          rw [hptags]
          rfl
        rw [e] at hi
        exact hi
      rw [update_tags_eq hobj hptags]
      exact (resolveRows_ids u names s.tags s.nextTagId).1 i hi
    case refine_3 =>
      intro n hn
      rw [update_tags_eq hobj hptags]
      have e : (apply_payload r p (tagsStep u s p.tags).1
          (ingredientsStep u (tagsStep u s p.tags).2 p.ingredients).1).tags =
            (resolveRows u names s.tags s.nextTagId).1 := by
        show (tagsStep u s p.tags).1.getD r.tags = _
        rw [hptags]
        rfl
      rw [e]
      exact (resolveRows_ids u names s.tags s.nextTagId).2 n hn
    case refine_4 =>
      intro t ht htu htn hti
      have e : (apply_payload r p (tagsStep u s p.tags).1
          (ingredientsStep u (tagsStep u s p.tags).2 p.ingredients).1).tags =
            (resolveRows u names s.tags s.nextTagId).1 := by
        show (tagsStep u s p.tags).1.getD r.tags = _
        rw [hptags]
        rfl
      rw [e] at hti
      obtain ⟨t2, ht2mem, ht2id, ht2u, ht2n⟩ :=
        (resolveRows_ids u names s.tags s.nextTagId).1 t.id hti
      have hndall :=
        (resolveRows_fresh_nodup u names s.tags s.nextTagId hndt hft).1
      have htmem2 : t ∈ (resolveRows u names s.tags s.nextTagId).2.1 :=
        (resolveRows_sublist u names s.tags s.nextTagId).subset ht
      have ht2t : t2 = t :=
        List.inj_on_of_nodup_map hndall ht2mem htmem2 ht2id
      exact htn (ht2t ▸ ht2n)
  · intro hnone
    refine ⟨_, update_recipeById hobj hnd, ?_⟩
    show (tagsStep u s p.tags).1.getD r.tags = r.tags
    rw [hnone]
    rfl
  · intro names hpingr
    refine ⟨_, update_recipeById hobj hnd, ?_, ?_, ?_, ?_⟩
    case refine_1 =>
      intro hnil
      show (ingredientsStep u (tagsStep u s p.tags).2 p.ingredients).1.getD
          r.ingredients = []
      rw [hpingr, hnil]
      show ((resolve_ingredients u (tagsStep u s p.tags).2 []).1 : List Nat) = []
      rfl
    case refine_2 =>
      intro i hi
      replace hi : i ∈ (resolveRows u names s.ingredients s.nextIngredientId).1 := by
        have e : (apply_payload r p (tagsStep u s p.tags).1
            (ingredientsStep u (tagsStep u s p.tags).2 p.ingredients).1).ingredients =
              (resolveRows u names s.ingredients s.nextIngredientId).1 := by
          show (ingredientsStep u (tagsStep u s p.tags).2 p.ingredients).1.getD
              r.ingredients = _
          rw [hpingr]
          show (resolveRows u names (tagsStep u s p.tags).2.ingredients
              (tagsStep u s p.tags).2.nextIngredientId).1 = _
          rw [tagsStep_ingredients, tagsStep_nextIngredientId]
        rw [e] at hi
        exact hi
      rw [update_ingredients_eq hobj hpingr]
      exact (resolveRows_ids u names s.ingredients s.nextIngredientId).1 i hi
    case refine_3 =>
      intro n hn
      rw [update_ingredients_eq hobj hpingr]
      have e : (apply_payload r p (tagsStep u s p.tags).1
          (ingredientsStep u (tagsStep u s p.tags).2 p.ingredients).1).ingredients =
            (resolveRows u names s.ingredients s.nextIngredientId).1 := by
        show (ingredientsStep u (tagsStep u s p.tags).2 p.ingredients).1.getD
            r.ingredients = _
        rw [hpingr]
        show (resolveRows u names (tagsStep u s p.tags).2.ingredients
            (tagsStep u s p.tags).2.nextIngredientId).1 = _
        rw [tagsStep_ingredients, tagsStep_nextIngredientId]
      rw [e]
      exact (resolveRows_ids u names s.ingredients s.nextIngredientId).2 n hn
    case refine_4 =>
      intro t ht htu htn hti
      have e : (apply_payload r p (tagsStep u s p.tags).1
          (ingredientsStep u (tagsStep u s p.tags).2 p.ingredients).1).ingredients =
            (resolveRows u names s.ingredients s.nextIngredientId).1 := by
        show (ingredientsStep u (tagsStep u s p.tags).2 p.ingredients).1.getD
            r.ingredients = _
        rw [hpingr]
        show (resolveRows u names (tagsStep u s p.tags).2.ingredients
            (tagsStep u s p.tags).2.nextIngredientId).1 = _
        rw [tagsStep_ingredients, tagsStep_nextIngredientId]
      rw [e] at hti
      obtain ⟨t2, ht2mem, ht2id, ht2u, ht2n⟩ :=
        (resolveRows_ids u names s.ingredients s.nextIngredientId).1 t.id hti
      have hndall :=
        (resolveRows_fresh_nodup u names s.ingredients s.nextIngredientId
          hndi hfi).1
      have htmem2 : t ∈ (resolveRows u names s.ingredients s.nextIngredientId).2.1 :=
        (resolveRows_sublist u names s.ingredients s.nextIngredientId).subset ht
      have ht2t : t2 = t :=
        List.inj_on_of_nodup_map hndall ht2mem htmem2 ht2id
      exact htn (ht2t ▸ ht2n)
  · intro hnone
    refine ⟨_, update_recipeById hobj hnd, ?_⟩
    show (ingredientsStep u (tagsStep u s p.tags).2 p.ingredients).1.getD
        r.ingredients = r.ingredients
    rw [hnone]
    rfl

theorem update_list_replaces_assoc_witness :
    (({ tags := some ["Tag2"] } : RecipePayload).tags = some ["Tag2"]) ∧
    (∃ r', recipeById
        (RecipeViewSet.update 1
          ⟨[⟨1, 1, "T", "d", 5, 525, "", [5], []⟩], [⟨5, 1, "Tag1"⟩], [],
            2, 6, 0⟩ 1 { tags := some ["Tag2"] }).2 1 = some r' ∧
      (["Tag2"] = ([] : List String) → r'.tags = []) ∧
      (∀ i ∈ r'.tags, ∃ t ∈ (RecipeViewSet.update 1
          ⟨[⟨1, 1, "T", "d", 5, 525, "", [5], []⟩], [⟨5, 1, "Tag1"⟩], [],
            2, 6, 0⟩ 1 { tags := some ["Tag2"] }).2.tags,
          t.id = i ∧ t.user = 1 ∧ t.name ∈ ["Tag2"]) ∧
      (∀ n ∈ ["Tag2"], ∃ t ∈ (RecipeViewSet.update 1
          ⟨[⟨1, 1, "T", "d", 5, 525, "", [5], []⟩], [⟨5, 1, "Tag1"⟩], [],
            2, 6, 0⟩ 1 { tags := some ["Tag2"] }).2.tags,
          t.user = 1 ∧ t.name = n ∧ t.id ∈ r'.tags) ∧
      (∀ t ∈ [(⟨5, 1, "Tag1"⟩ : AttrRow)], t.user = 1 → t.name ∉ ["Tag2"] →
          t.id ∉ r'.tags)) :=
  ⟨rfl,
    (update_list_replaces_assoc 1
        ⟨[⟨1, 1, "T", "d", 5, 525, "", [5], []⟩], [⟨5, 1, "Tag1"⟩], [],
          2, 6, 0⟩ 1 { tags := some ["Tag2"] }
        ⟨1, 1, "T", "d", 5, 525, "", [5], []⟩
        (by decide) (by decide) (by decide) (by decide) (by decide)
        (by decide)).1 ["Tag2"] rfl⟩

/-- C7: an owner's update whose payload carries a user field succeeds with
200, and the (id, owner) column of the recipe table is unchanged — the
field is silently ignored, never applied and never rejected. -/
theorem update_ignores_user_field (u v : Nat) (s : Store) (pk : Nat)
    (p : RecipePayload) (r : Recipe)
    (_hu : p.user = some v)
    (hobj : RecipeViewSet.get_object u s pk = some r)
    (hnd : (s.recipes.map Recipe.id).Nodup) :
    (RecipeViewSet.update u s pk p).1 = HStatus.ok200 ∧
    (RecipeViewSet.update u s pk p).2.recipes.map (fun x => (x.id, x.user)) =
      s.recipes.map (fun x => (x.id, x.user)) := by
  obtain ⟨hrmem, hru, hrid⟩ := get_object_mem hobj
  constructor
  · rw [update_of_found hobj]
  · rw [update_recipes_of_found hobj, List.map_map]
    apply List.map_congr_left
    intro x hx
    by_cases hxid : x.id = pk
    · have hxr : x = r :=
        List.inj_on_of_nodup_map hnd hx hrmem (by rw [hxid, hrid])
      subst hxr
      simp [Function.comp, hxid, apply_payload]
    · simp [Function.comp, hxid]

theorem update_ignores_user_field_witness :
    (({ user := some 2 } : RecipePayload).user = some 2) ∧
    (RecipeViewSet.update 1
        ⟨[⟨1, 1, "T", "d", 5, 525, "", [], []⟩], [], [], 2, 0, 0⟩ 1
        { user := some 2 }).2.recipes.map (fun x => (x.id, x.user)) =
      [(⟨1, 1, "T", "d", 5, 525, "", [], []⟩ : Recipe)].map
        (fun x => (x.id, x.user)) :=
  ⟨rfl,
    (update_ignores_user_field 1 2
        ⟨[⟨1, 1, "T", "d", 5, 525, "", [], []⟩], [], [], 2, 0, 0⟩ 1
        { user := some 2 } ⟨1, 1, "T", "d", 5, 525, "", [], []⟩
        rfl (by decide) (by decide)).2⟩
